import Mathlib

/-!
Verification of the session-orchestration subsystem of the `dreamal`
repository (Rust, `src-tauri`).  The Rust code is shallowly embedded:
strings are `List Char`, the wall clock is an explicit `Nat` parameter
(seconds since the epoch, which is what `SystemTime::now … as_secs()`
yields), the `HashMap` behind the session registry is an association
list, and the filesystem pieces touched by the claims (the
temp-checkouts root, the per-session record files) are explicit finite
maps.  Every definition is translated from the corresponding Rust
function; the Unicode-aware Rust character classifiers
(`char::is_alphanumeric`, `str::to_lowercase`, `char::is_whitespace`)
are embedded by their ASCII restrictions (`Char.isAlphanum`,
`Char.toLower`, `Char.isWhitespace`).
-/

/-- Rust `&str` / `String`, embedded as its character sequence. -/
abbrev Str := List Char

/-- `str::trim`: drop Unicode whitespace from both ends (ASCII model). -/
def trimStr (s : Str) : Str :=
  ((s.dropWhile Char.isWhitespace).reverse.dropWhile Char.isWhitespace).reverse

/-- Rust `str::split(sep)`: the (possibly empty) segments between
occurrences of `sep`; the empty string yields one empty segment. -/
def splitOnChar (sep : Char) : Str → List Str
  | [] => [[]]
  | c :: rest =>
    if c = sep then [] :: splitOnChar sep rest
    else
      match splitOnChar sep rest with
      | s :: ss => (c :: s) :: ss
      | [] => [[c]]

/-- Rust `Vec::join(sep)` for a single-character separator. -/
def joinChar (sep : Char) : List Str → Str
  | [] => []
  | [s] => s
  | s :: rest => s ++ sep :: joinChar sep rest

/-- Strip an exact literal from the front of a string, or fail
(the matching half of Rust `str::strip_prefix`). -/
def dropLit : Str → Str → Option Str
  | [], l => some l
  | _ :: _, [] => none
  | p :: ps, c :: cs => if c = p then dropLit ps cs else none

/-- Rust `str::strip_suffix(suf).unwrap_or(s)`: remove a trailing
literal if present, otherwise return the string unchanged. -/
def dropSuffixLit (suf : Str) (l : Str) : Str :=
  if suf.isSuffixOf l then l.take (l.length - suf.length) else l

/-- Rust `str::contains(pat)` for a literal pattern. -/
def containsSub (l pat : Str) : Bool :=
  pat.isPrefixOf l ||
    match l with
    | [] => false
    | _ :: rest => containsSub rest pat

/-- Everything after the first occurrence of `:`
(Rust `url.find(':')` followed by `&url[idx + 1 ..]`). -/
def afterFirstColon? : Str → Option Str
  | [] => none
  | c :: rest => if c = ':' then some rest else afterFirstColon? rest

/-- Decimal rendering of a natural number, as produced by Rust's
`Display` for `u64` (used by `format!("{}", timestamp)` and by
serde's integer serializer). -/
def natToDecimal (n : Nat) : Str :=
  if n < 10 then [Nat.digitChar n]
  else natToDecimal (n / 10) ++ [Nat.digitChar (n % 10)]
  decreasing_by exact Nat.div_lt_self (by omega) (by omega)

/-- Value of a decimal digit string (left fold, most significant first). -/
def decValue (ds : Str) : Nat :=
  ds.foldl (fun a c => a * 10 + (c.toNat - 48)) 0

/- ### `claude_session/types.rs` -/

/-- `SessionStatus` with `#[serde(rename_all = "lowercase")]`. -/
inductive SessionStatus where
  | initializing
  | working
  | completed
  | error
  deriving DecidableEq, Repr

/-- `SessionInfo`: the externally visible session record
(field order as declared, which fixes the serde field order). -/
structure SessionInfo where
  id : Str
  status : SessionStatus
  pr_url : Option Str
  error_message : Option Str
  git_directory : Str
  instructions : Str
  created_at : Nat
  deriving DecidableEq, Repr

/-- `Session`: the registry-internal record. -/
structure Session where
  info : SessionInfo
  work_dir : Str
  branch_name : Str
  process_id : Option Nat
  deriving DecidableEq, Repr

/-- `Session::new`: fresh record in `Initializing` state; the
`created_at` clock reading is an explicit parameter. -/
def Session.new (id git_directory instructions : Str) (work_dir : Str)
    (branch_name : Str) (created_at : Nat) : Session where
  info :=
    { id := id
      status := .initializing
      pr_url := none
      error_message := none
      git_directory := git_directory
      instructions := instructions
      created_at := created_at }
  work_dir := work_dir
  branch_name := branch_name
  process_id := none

/-- `Session::set_working`: unconditionally sets status `Working`
and records the process id. -/
def Session.set_working (s : Session) (process_id : Nat) : Session :=
  { s with
    info := { s.info with status := .working }
    process_id := some process_id }

/-- `Session::set_completed`: unconditionally sets status `Completed`,
records the PR URL, clears the process id. -/
def Session.set_completed (s : Session) (pr_url : Str) : Session :=
  { s with
    info := { s.info with status := .completed, pr_url := some pr_url }
    process_id := none }

/-- `Session::set_error`: unconditionally sets status `Error`,
records the message, clears the process id. -/
def Session.set_error (s : Session) (message : Str) : Session :=
  { s with
    info := { s.info with status := .error, error_message := some message }
    process_id := none }

/- ### `claude_session/manager.rs` -/

/-- `SessionError` (the `LockError` variant models lock poisoning,
which cannot occur in the sequential embedding). -/
inductive SessionError where
  | notFound (id : Str)
  | alreadyExists (id : Str)
  | lockError
  deriving DecidableEq, Repr

/-- The `HashMap<String, Session>` behind the manager, embedded as an
association list with (by construction) unique keys. -/
abbrev Registry := List (Str × Session)

/-- `HashMap::get` / `contains_key`. -/
def lookupSession : Registry → Str → Option Session
  | [], _ => none
  | (k, s) :: rest, id => if k = id then some s else lookupSession rest id

/-- `HashMap::get_mut` followed by an in-place mutation: rewrite the
(first) entry with the given key, leave everything else alone. -/
def updateSession : Registry → Str → (Session → Session) → Registry
  | [], _, _ => []
  | (k, s) :: rest, id, f =>
    if k = id then (k, f s) :: rest else (k, s) :: updateSession rest id f

/-- `HashMap::remove`: delete the (first) entry with the given key. -/
def removeEntry : Registry → Str → Registry
  | [], _ => []
  | (k, s) :: rest, id => if k = id then rest else (k, s) :: removeEntry rest id

/-- `SessionManager::create_session`. -/
def createSession (reg : Registry) (id git_directory instructions : Str)
    (work_dir branch_name : Str) (now : Nat) :
    Except SessionError (SessionInfo × Registry) :=
  if (lookupSession reg id).isSome then
    .error (.alreadyExists id)
  else
    let session := Session.new id git_directory instructions work_dir branch_name now
    .ok (session.info, (id, session) :: reg)

/-- `SessionManager::set_working`. -/
def setWorkingM (reg : Registry) (id : Str) (process_id : Nat) :
    Except SessionError Registry :=
  if (lookupSession reg id).isSome then
    .ok (updateSession reg id (fun s => s.set_working process_id))
  else .error (.notFound id)

/-- `SessionManager::set_completed`. -/
def setCompletedM (reg : Registry) (id : Str) (pr_url : Str) :
    Except SessionError Registry :=
  if (lookupSession reg id).isSome then
    .ok (updateSession reg id (fun s => s.set_completed pr_url))
  else .error (.notFound id)

/-- `SessionManager::set_error`. -/
def setErrorM (reg : Registry) (id : Str) (message : Str) :
    Except SessionError Registry :=
  if (lookupSession reg id).isSome then
    .ok (updateSession reg id (fun s => s.set_error message))
  else .error (.notFound id)

/-- `SessionManager::remove_session`. -/
def removeSessionM (reg : Registry) (id : Str) :
    Except SessionError (Session × Registry) :=
  match lookupSession reg id with
  | some s => .ok (s, removeEntry reg id)
  | none => .error (.notFound id)

/-- `SessionManager::get_active_sessions`. -/
def getActiveSessions (reg : Registry) : List SessionInfo :=
  (reg.filter fun p =>
      p.2.info.status = SessionStatus.initializing ∨
        p.2.info.status = SessionStatus.working).map
    (fun p => p.2.info)

/-- The mutating registry operations, as an operation language for
reasoning about call sequences. -/
inductive RegOp where
  | create (id git_directory instructions work_dir branch_name : Str) (now : Nat)
  | setWorking (id : Str) (process_id : Nat)
  | setCompleted (id : Str) (pr_url : Str)
  | setError (id : Str) (message : Str)
  | remove (id : Str)
  deriving DecidableEq, Repr

/-- Run one manager call; a call that returns `Err` leaves the map
unchanged (exactly what the Rust methods do). -/
def applyOp (reg : Registry) : RegOp → Registry
  | .create id gd instr wd bn now =>
    match createSession reg id gd instr wd bn now with
    | .ok (_, reg') => reg'
    | .error _ => reg
  | .setWorking id pid =>
    match setWorkingM reg id pid with
    | .ok reg' => reg'
    | .error _ => reg
  | .setCompleted id url =>
    match setCompletedM reg id url with
    | .ok reg' => reg'
    | .error _ => reg
  | .setError id msg =>
    match setErrorM reg id msg with
    | .ok reg' => reg'
    | .error _ => reg
  | .remove id =>
    match removeSessionM reg id with
    | .ok (_, reg') => reg'
    | .error _ => reg

/-- Run a sequence of manager calls, first element first. -/
def applyOps (reg : Registry) : List RegOp → Registry
  | [] => reg
  | op :: rest => applyOps (applyOp reg op) rest

/-- Status of the session with the given id, if present. -/
def statusOf (reg : Registry) (id : Str) : Option SessionStatus :=
  (lookupSession reg id).map (fun s => s.info.status)

/-- Does this registry call mutate or delete the entry with this id?
(`create` never does: on a present id it fails and leaves the map
unchanged.) -/
def opTargetsId : RegOp → Str → Bool
  | .create _ _ _ _ _ _, _ => false
  | .setWorking i _, id => i == id
  | .setCompleted i _, id => i == id
  | .setError i _, id => i == id
  | .remove i, id => i == id

/-- The field–status correspondence of §3: `pr_url` is set exactly in
`Completed` state, `error_message` exactly in `Error` state. -/
def fieldsMatchStatus (i : SessionInfo) : Prop :=
  (i.pr_url.isSome = true ↔ i.status = SessionStatus.completed) ∧
    (i.error_message.isSome = true ↔ i.status = SessionStatus.error)

/-- A status setter is applied in lifecycle order when its target is not
already in a terminal state; the other calls are unconstrained. -/
def okToSetB (reg : Registry) : RegOp → Bool
  | .setWorking id _ =>
    !(statusOf reg id == some .completed) && !(statusOf reg id == some .error)
  | .setCompleted id _ =>
    !(statusOf reg id == some .completed) && !(statusOf reg id == some .error)
  | .setError id _ =>
    !(statusOf reg id == some .completed) && !(statusOf reg id == some .error)
  | _ => true

/-- A call sequence is orderly from a given registry state when every
status setter fires while its target is still non-terminal. -/
def orderlyFromB : Registry → List RegOp → Bool
  | _, [] => true
  | reg, op :: rest => okToSetB reg op && orderlyFromB (applyOp reg op) rest

/-- Every session record of the registry satisfies the field–status
correspondence. -/
def registryConsistent (reg : Registry) : Prop :=
  ∀ p ∈ reg, fieldsMatchStatus p.2.info

/- ### `git_ops/branch.rs` -/

/-- The slug computed by `generate_branch_name`: lower-case, map every
non-alphanumeric character to `-`, split on `-`, drop empty segments,
re-join with `-`, keep the first 30 characters. -/
def slugOf (description : Str) : Str :=
  (joinChar '-'
      ((splitOnChar '-'
            ((description.map Char.toLower).map fun c =>
              if c.isAlphanum then c else '-')).filter
        fun s => !s.isEmpty)).take 30

/-- `generate_branch_name`: `format!("claude/{}-{}", slug, timestamp)`;
the clock reading (seconds since the epoch) is an explicit parameter. -/
def generateBranchName (description : Str) (now : Nat) : Str :=
  "claude/".data ++ slugOf description ++ '-' :: natToDecimal now

/- ### `git_ops/mod.rs` and `git_ops/pr.rs` -/

/-- `GitOpsError` (the `IoError` payload is reduced to its message). -/
inductive GitOpsError where
  | homeNotFound
  | ioError (msg : Str)
  | gitError (msg : Str)
  | authError (msg : Str)
  | sessionExists (id : Str)
  deriving DecidableEq, Repr

/-- `RepoInfo`: transient `{owner, repo}` result of remote-URL parsing. -/
structure RepoInfo where
  owner : Str
  repo : Str
  deriving DecidableEq, Repr

/-- `parse_github_remote`: the SSH arm fires when the trimmed URL starts
with the literal `git@` and contains `github.com:`, taking the text after
the first `:`, stripping an optional `.git`, and requiring exactly two
`/`-separated parts; the HTTPS arm fires when the URL starts with the
literal `https://github.com/`, stripping `.git` and requiring at least
two parts (extra segments beyond owner/repo are ignored). -/
def parseGithubRemote (remote_url : Str) : Except GitOpsError RepoInfo :=
  let url := trimStr remote_url
  let ssh : Option RepoInfo :=
    if "git@".data.isPrefixOf url && containsSub url "github.com:".data then
      match afterFirstColon? url with
      | some path =>
        match splitOnChar '/' (dropSuffixLit ".git".data path) with
        | [owner, repo] => some ⟨owner, repo⟩
        | _ => none
      | none => none
    else none
  match ssh with
  | some r => .ok r
  | none =>
    let https : Option RepoInfo :=
      if "https://github.com/".data.isPrefixOf url then
        match splitOnChar '/'
            (dropSuffixLit ".git".data (url.drop "https://github.com/".data.length)) with
        | owner :: repo :: _ => some ⟨owner, repo⟩
        | _ => none
      else none
    match https with
    | some r => .ok r
    | none => .error (.gitError ("Could not parse GitHub remote URL: ".data ++ url))

/- ### `git_ops/cleanup.rs` -/

/-- One entry of the temp-checkouts root directory, as seen by
`fs::read_dir`: its file name and whether it is a directory. -/
structure DirEntry where
  name : Str
  isDir : Bool
  deriving DecidableEq, Repr

/-- The removal condition of the orphan sweep: `path.is_dir()` and the
file name starts with `session-`. -/
def isSessionDirEntry (e : DirEntry) : Bool :=
  e.isDir && "session-".data.isPrefixOf e.name

/-- The `for entry in fs::read_dir(..)` loop of
`cleanup_orphaned_sessions`: returns the entries left in place and the
number removed. -/
def cleanupLoop : List DirEntry → List DirEntry × Nat
  | [] => ([], 0)
  | e :: rest =>
    if isSessionDirEntry e then ((cleanupLoop rest).1, (cleanupLoop rest).2 + 1)
    else (e :: (cleanupLoop rest).1, (cleanupLoop rest).2)

/-- `cleanup_orphaned_sessions`: `none` stands for an absent
temp-checkouts root (`!checkouts_dir.exists()`), in which case the sweep
removes nothing and reports `0`. -/
def cleanupOrphanedSessions :
    Option (List DirEntry) → Option (List DirEntry) × Nat
  | none => (none, 0)
  | some entries =>
    let (remaining, n) := cleanupLoop entries
    (some remaining, n)

/- ### `claude_session/process.rs` -/

/-- The fixed closing guidance block of `compose_instructions`. -/
def importantGuidelines : Str :=
  ("\n\n## Important Guidelines\n"
    ++ "- Make the requested changes to the codebase\n"
    ++ "- Run tests to verify your changes work correctly\n"
    ++ "- Do NOT perform any git operations (no git add, commit, push, branch, etc.)\n"
    ++ "- When you have completed all changes and tests pass, simply stop working\n").data

/-- `compose_instructions`: base text, optional `Additional
Instructions` section (only when present and not blank after `trim`),
optional `Instructions from File` section (same rule), then the fixed
guidance block. -/
def composeInstructions (user_instructions : Str)
    (additional_instructions : Option Str)
    (instructions_file_content : Option Str) : Str :=
  let full := user_instructions
  let full :=
    match additional_instructions with
    | some additional =>
      if !(trimStr additional).isEmpty then
        full ++ "\n\n## Additional Instructions\n".data ++ additional
      else full
    | none => full
  let full :=
    match instructions_file_content with
    | some file_content =>
      if !(trimStr file_content).isEmpty then
        full ++ "\n\n## Instructions from File\n".data ++ file_content
      else full
    | none => full
  full ++ importantGuidelines

/- ### `claude_session/persistence.rs` -/

/-- Lower-case hex digit (serde_json's `HEX_DIGITS` table). -/
def hexDigitChar (n : Nat) : Char :=
  if n < 10 then Nat.digitChar n
  else if n = 10 then 'a'
  else if n = 11 then 'b'
  else if n = 12 then 'c'
  else if n = 13 then 'd'
  else if n = 14 then 'e'
  else 'f'

/-- serde_json's escaping of one character inside a JSON string:
`"` and `\` are escaped, the named control characters get their short
escapes, the remaining control characters become `\u00XX`, and
everything else is emitted verbatim. -/
def escapeChar (c : Char) : Str :=
  if c = '"' then ['\\', '"']
  else if c = '\\' then ['\\', '\\']
  else if c = '\x08' then ['\\', 'b']
  else if c = '\t' then ['\\', 't']
  else if c = '\n' then ['\\', 'n']
  else if c = '\x0c' then ['\\', 'f']
  else if c = '\r' then ['\\', 'r']
  else if c.toNat < 32 then
    ['\\', 'u', '0', '0', hexDigitChar (c.toNat / 16), hexDigitChar (c.toNat % 16)]
  else [c]

/-- serde_json's escaping of a whole string body. -/
def escapeStr : Str → Str
  | [] => []
  | c :: rest => escapeChar c ++ escapeStr rest

/-- A serialized JSON string: `"` body `"`. -/
def quoteStr (s : Str) : Str :=
  '"' :: (escapeStr s ++ ['"'])

/-- Value of one hex digit, as read by the JSON parser. -/
def hexVal (c : Char) : Option Nat :=
  if '0' ≤ c ∧ c ≤ '9' then some (c.toNat - 48)
  else if 'a' ≤ c ∧ c ≤ 'f' then some (c.toNat - 87)
  else if 'A' ≤ c ∧ c ≤ 'F' then some (c.toNat - 55)
  else none

/-- The single-character JSON escapes accepted after a backslash. -/
def unescapeChar (c : Char) : Option Char :=
  if c = '"' then some '"'
  else if c = '\\' then some '\\'
  else if c = '/' then some '/'
  else if c = 'b' then some '\x08'
  else if c = 't' then some '\t'
  else if c = 'n' then some '\n'
  else if c = 'f' then some '\x0c'
  else if c = 'r' then some '\r'
  else none

/-- JSON string-body parser: consumes characters up to the closing
quote, resolving escapes; returns the decoded body and the rest of the
input. -/
def parseStringBody : Str → Option (Str × Str)
  | [] => none
  | c :: rest =>
    if c = '"' then some ([], rest)
    else if c = '\\' then
      match rest with
      | [] => none
      | e :: rest2 =>
        if e = 'u' then
          match rest2 with
          | h1 :: h2 :: h3 :: h4 :: rest3 =>
            match hexVal h1, hexVal h2, hexVal h3, hexVal h4 with
            | some d1, some d2, some d3, some d4 =>
              match parseStringBody rest3 with
              | some (s, r) =>
                some (Char.ofNat (((d1 * 16 + d2) * 16 + d3) * 16 + d4) :: s, r)
              | none => none
            | _, _, _, _ => none
          | _ => none
        else
          match unescapeChar e, parseStringBody rest2 with
          | some uc, some (s, r) => some (uc :: s, r)
          | _, _ => none
    else
      match parseStringBody rest with
      | some (s, r) => some (c :: s, r)
      | none => none

/-- JSON string parser: an opening quote followed by a body. -/
def parseJsonString : Str → Option (Str × Str)
  | [] => none
  | c :: rest => if c = '"' then parseStringBody rest else none

/-- serde encoding of `Option<String>`: `null` or a JSON string. -/
def encodeOptStr : Option Str → Str
  | none => "null".data
  | some s => quoteStr s

/-- Parser for `null`-or-string. -/
def parseOptStr (l : Str) : Option (Option Str × Str) :=
  match l with
  | [] => none
  | c :: _ =>
    if c = '"' then (parseJsonString l).map fun p => (some p.1, p.2)
    else (dropLit "null".data l).map fun r => (none, r)

/-- serde encoding of `SessionStatus` under `rename_all = "lowercase"`. -/
def encodeStatus : SessionStatus → Str
  | .initializing => "\"initializing\"".data
  | .working => "\"working\"".data
  | .completed => "\"completed\"".data
  | .error => "\"error\"".data

/-- Parser for the four status literals. -/
def parseStatus (l : Str) : Option (SessionStatus × Str) :=
  match dropLit "\"initializing\"".data l with
  | some r => some (.initializing, r)
  | none =>
    match dropLit "\"working\"".data l with
    | some r => some (.working, r)
    | none =>
      match dropLit "\"completed\"".data l with
      | some r => some (.completed, r)
      | none =>
        match dropLit "\"error\"".data l with
        | some r => some (.error, r)
        | none => none

/-- Greedy decimal-number parser (as serde reads `u64`). -/
def parseNatDecimal (l : Str) : Option (Nat × Str) :=
  let ds := l.takeWhile fun c => c.isDigit
  if ds.isEmpty then none
  else some (decValue ds, l.dropWhile fun c => c.isDigit)

/-- `serde_json::to_string` for `SessionInfo`: one JSON object, fields
in declaration order, no whitespace. -/
def serializeSessionInfo (info : SessionInfo) : Str :=
  "\x7b\"id\":".data ++ quoteStr info.id
    ++ (",\"status\":".data ++ (encodeStatus info.status
    ++ (",\"pr_url\":".data ++ (encodeOptStr info.pr_url
    ++ (",\"error_message\":".data ++ (encodeOptStr info.error_message
    ++ (",\"git_directory\":".data ++ (quoteStr info.git_directory
    ++ (",\"instructions\":".data ++ (quoteStr info.instructions
    ++ (",\"created_at\":".data ++ (natToDecimal info.created_at
    ++ "\x7d".data))))))))))))

/-- `serde_json::from_str` for `SessionInfo`, restricted to the exact
shape the serializer emits. -/
def parseSessionInfo (l : Str) : Option SessionInfo := do
  let l ← dropLit "\x7b\"id\":".data l
  let (id, l) ← parseJsonString l
  let l ← dropLit ",\"status\":".data l
  let (status, l) ← parseStatus l
  let l ← dropLit ",\"pr_url\":".data l
  let (pr_url, l) ← parseOptStr l
  let l ← dropLit ",\"error_message\":".data l
  let (error_message, l) ← parseOptStr l
  let l ← dropLit ",\"git_directory\":".data l
  let (git_directory, l) ← parseJsonString l
  let l ← dropLit ",\"instructions\":".data l
  let (instructions, l) ← parseJsonString l
  let l ← dropLit ",\"created_at\":".data l
  let (created_at, l) ← parseNatDecimal l
  let l ← dropLit "\x7d".data l
  if l.isEmpty then
    some ⟨id, status, pr_url, error_message, git_directory, instructions, created_at⟩
  else none

/-- The sessions directory, as a map from session id to the contents of
that session's record file (`<id>.json`). -/
abbrev FileStore := List (Str × Str)

/-- `fs::write`: create or overwrite the file for a key. -/
def setFile : FileStore → Str → Str → FileStore
  | [], id, content => [(id, content)]
  | (k, v) :: rest, id, content =>
    if k = id then (k, content) :: rest else (k, v) :: setFile rest id content

/-- File lookup (`path.exists()` plus `fs::read_to_string`). -/
def getFile : FileStore → Str → Option Str
  | [], _ => none
  | (k, v) :: rest, id => if k = id then some v else getFile rest id

/-- `save_session_info`: serialize wholesale and write the record file
named after `info.id`. -/
def saveSessionInfo (store : FileStore) (info : SessionInfo) : FileStore :=
  setFile store info.id (serializeSessionInfo info)

/-- `load_session_info`: absent file is `Ok(None)`; a present file is
parsed, and a parse failure is an error. -/
def loadSessionInfo (store : FileStore) (session_id : Str) :
    Except Str (Option SessionInfo) :=
  match getFile store session_id with
  | none => .ok none
  | some content =>
    match parseSessionInfo content with
    | some info => .ok (some info)
    | none => .error "Failed to parse session file".data

/- ### Character-level facts about the ASCII case functions -/

theorem Char.isUpper_eq_decide (d : Char) :
    d.isUpper = (decide (65 ≤ d.toNat) && decide (d.toNat ≤ 90)) := by
  simp [Char.isUpper, UInt32.le_def, BitVec.le_def, Char.toNat, UInt32.toNat]

theorem Char.toNat_toLower (c : Char) :
    c.toLower.toNat = if 65 ≤ c.toNat ∧ c.toNat ≤ 90 then c.toNat + 32 else c.toNat := by
  unfold Char.toLower
  by_cases h : 65 ≤ c.toNat ∧ c.toNat ≤ 90
  · simp only [h, if_pos, ge_iff_le, and_imp]
    have hvalid : (c.toNat + 32).isValidChar := by left; omega
    simp [show (c.toNat ≥ 65 ∧ c.toNat ≤ 90) from h, Char.ofNat, hvalid]
    rfl
  · simp only [ge_iff_le]
    rw [if_neg h, if_neg h]

theorem Char.isUpper_toLower (c : Char) : c.toLower.isUpper = false := by
  rw [Char.isUpper_eq_decide]
  have := Char.toNat_toLower c
  by_cases h : 65 ≤ c.toNat ∧ c.toNat ≤ 90 <;> simp [h] at this <;> simp [this] <;> omega

theorem Char.isAlphanum_eq_decide (d : Char) :
    d.isAlphanum = (decide (65 ≤ d.toNat) && decide (d.toNat ≤ 90)
      || decide (97 ≤ d.toNat) && decide (d.toNat ≤ 122)
      || decide (48 ≤ d.toNat) && decide (d.toNat ≤ 57)) := by
  simp [Char.isAlphanum, Char.isAlpha, Char.isUpper, Char.isLower, Char.isDigit,
    UInt32.le_def, BitVec.le_def, Char.toNat, UInt32.toNat]

theorem Char.toLower_of_not_alphanum (c : Char) (h : c.isAlphanum = false) :
    c.toLower = c := by
  rw [Char.isAlphanum_eq_decide] at h
  unfold Char.toLower
  simp only [ge_iff_le]
  rw [if_neg]
  simp at h
  omega

/- ### Decimal rendering round-trips -/

theorem natToDecimal_all_digits (n : Nat) :
    ∀ c ∈ natToDecimal n, c.isDigit = true := by
  have digit : ∀ d < 10, (Nat.digitChar d).isDigit = true := by decide
  induction n using Nat.strong_induction_on with
  | _ n ih =>
    rw [natToDecimal]
    by_cases h : n < 10
    · simp only [if_pos h]
      intro c hc
      rw [List.mem_singleton] at hc
      exact hc ▸ digit n h
    · simp only [if_neg h]
      intro c hc
      rcases List.mem_append.1 hc with h1 | h1
      · exact ih (n / 10) (Nat.div_lt_self (by omega) (by omega)) c h1
      · rw [List.mem_singleton] at h1
        exact h1 ▸ digit (n % 10) (Nat.mod_lt _ (by omega))

theorem natToDecimal_ne_nil (n : Nat) : natToDecimal n ≠ [] := by
  rw [natToDecimal]
  by_cases h : n < 10 <;> simp [h]

theorem decValue_append_digit (ds : Str) (c : Char) :
    decValue (ds ++ [c]) = decValue ds * 10 + (c.toNat - 48) := by
  simp [decValue, List.foldl_append]

theorem decValue_natToDecimal (n : Nat) : decValue (natToDecimal n) = n := by
  have digitVal : ∀ d < 10, (Nat.digitChar d).toNat - 48 = d := by decide
  induction n using Nat.strong_induction_on with
  | _ n ih =>
    rw [natToDecimal]
    by_cases h : n < 10
    · simp only [if_pos h]
      show 0 * 10 + ((Nat.digitChar n).toNat - 48) = n
      rw [digitVal n h]
      omega
    · simp only [if_neg h]
      rw [decValue_append_digit, ih (n / 10) (Nat.div_lt_self (by omega) (by omega)),
        digitVal (n % 10) (Nat.mod_lt _ (by omega))]
      omega

theorem natToDecimal_inj {m n : Nat} (h : natToDecimal m = natToDecimal n) : m = n := by
  have := congrArg decValue h
  rwa [decValue_natToDecimal, decValue_natToDecimal] at this

/- ### `splitOnChar` / `joinChar` membership -/

theorem splitOnChar_ne_nil (sep : Char) (l : Str) : splitOnChar sep l ≠ [] := by
  induction l with
  | nil => simp [splitOnChar]
  | cons c rest ih =>
    rw [splitOnChar]
    by_cases h : c = sep
    · simp [h]
    · simp only [if_neg h]
      cases hs : splitOnChar sep rest <;> simp

theorem mem_splitOnChar {sep : Char} {l : Str} :
    ∀ s ∈ splitOnChar sep l, ∀ c ∈ s, c ∈ l ∧ c ≠ sep := by
  induction l with
  | nil =>
    intro s hs c hc
    simp [splitOnChar] at hs
    subst hs
    simp at hc
  | cons a rest ih =>
    intro s hs c hc
    rw [splitOnChar] at hs
    by_cases ha : a = sep
    · rw [if_pos ha] at hs
      rcases List.mem_cons.1 hs with h | h
      · subst h; simp at hc
      · have := ih s h c hc
        exact ⟨List.mem_cons_of_mem _ this.1, this.2⟩
    · rw [if_neg ha] at hs
      cases hsplit : splitOnChar sep rest with
      | nil => exact absurd hsplit (splitOnChar_ne_nil sep rest)
      | cons s0 ss =>
        rw [hsplit] at hs
        rcases List.mem_cons.1 hs with h | h
        · subst h
          rcases List.mem_cons.1 hc with h1 | h1
          · subst h1; exact ⟨List.mem_cons_self _ _, ha⟩
          · have hs0 : s0 ∈ splitOnChar sep rest := by
              rw [hsplit]; exact List.mem_cons_self _ _
            have := ih s0 hs0 c h1
            exact ⟨List.mem_cons_of_mem _ this.1, this.2⟩
        · have hsm : s ∈ splitOnChar sep rest := by
            rw [hsplit]; exact List.mem_cons_of_mem _ h
          have := ih s hsm c hc
          exact ⟨List.mem_cons_of_mem _ this.1, this.2⟩

theorem mem_joinChar {sep : Char} {L : List Str} :
    ∀ c ∈ joinChar sep L, c = sep ∨ ∃ s ∈ L, c ∈ s := by
  induction L with
  | nil => intro c hc; simp [joinChar] at hc
  | cons s rest ih =>
    cases rest with
    | nil =>
      intro c hc
      have hj : joinChar sep [s] = s := rfl
      rw [hj] at hc
      exact Or.inr ⟨s, List.mem_cons_self _ _, hc⟩
    | cons s2 rest2 =>
      intro c hc
      have hj : joinChar sep (s :: s2 :: rest2) = s ++ sep :: joinChar sep (s2 :: rest2) := rfl
      rw [hj] at hc
      rcases List.mem_append.1 hc with h | h
      · exact Or.inr ⟨s, List.mem_cons_self _ _, h⟩
      · rcases List.mem_cons.1 h with h1 | h1
        · exact Or.inl h1
        · rcases ih c h1 with h2 | ⟨s', hs', hcs'⟩
          · exact Or.inl h2
          · exact Or.inr ⟨s', List.mem_cons_of_mem _ hs', hcs'⟩

/- ### The slug of `generate_branch_name` -/

theorem slugOf_chars (d : Str) :
    ∀ c ∈ slugOf d, c = '-' ∨ (c.isAlphanum = true ∧ c.isUpper = false) := by
  intro c hc
  unfold slugOf at hc
  have hc' := List.take_subset 30 _ hc
  rcases mem_joinChar c hc' with h | ⟨s, hs, hcs⟩
  · exact Or.inl h
  · have hs' := List.mem_of_mem_filter hs
    rcases mem_splitOnChar s hs' c hcs with ⟨hmem, hne⟩
    rcases List.mem_map.1 hmem with ⟨c1, hc1, heq⟩
    by_cases halnum : c1.isAlphanum
    · rw [if_pos halnum] at heq
      subst heq
      rcases List.mem_map.1 hc1 with ⟨c0, _, heq0⟩
      exact Or.inr ⟨halnum, heq0 ▸ Char.isUpper_toLower c0⟩
    · rw [if_neg halnum] at heq
      exact absurd heq.symm hne

theorem slugOf_length (d : Str) : (slugOf d).length ≤ 30 := by
  unfold slugOf
  exact List.length_take_le 30 _


/- ### Claim theorems: branch-name generation -/

/-- **C3.** For every description, two calls to `generate_branch_name`
at different times — distinct clock readings, at the seconds granularity
the code samples (`SystemTime … as_secs()`) — return different branch
names. -/
theorem generateBranchName_time_inj (description : Str) (t1 t2 : Nat)
    (h : t1 ≠ t2) :
    generateBranchName description t1 ≠ generateBranchName description t2 := by
  intro he
  unfold generateBranchName at he
  have h1 := List.append_cancel_left he
  injection h1 with _ h3
  exact h (natToDecimal_inj h3)

/-- Witness for **C3** at the description `"fix"` and clock readings 3 and 5. -/
theorem generateBranchName_time_inj_witness :
    generateBranchName "fix".data 3 ≠ generateBranchName "fix".data 5 :=
  generateBranchName_time_inj "fix".data 3 5 (by decide)

/-- **C6.** Every branch name is the fixed `claude/` namespace, the slug,
`-`, and the timestamp; the slug is at most 30 characters and contains
only lowercase alphanumerics (alphanumeric, not upper-case) and the `-`
separator. -/
theorem generateBranchName_shape (description : Str) (now : Nat) :
    generateBranchName description now
        = "claude/".data ++ slugOf description ++ '-' :: natToDecimal now
      ∧ (slugOf description).length ≤ 30
      ∧ ∀ c ∈ slugOf description,
          c = '-' ∨ (c.isAlphanum = true ∧ c.isUpper = false) :=
  ⟨rfl, slugOf_length description, slugOf_chars description⟩

/-- Witness for **C6**: at `"Add X!"` and clock 7 the shape holds and the
slug character `a` is classified by the charset clause. -/
theorem generateBranchName_shape_witness :
    generateBranchName "Add X!".data 7
        = "claude/".data ++ slugOf "Add X!".data ++ '-' :: natToDecimal 7
      ∧ ('a' = '-' ∨ ('a'.isAlphanum = true ∧ 'a'.isUpper = false)) :=
  ⟨(generateBranchName_shape "Add X!".data 7).1,
    (generateBranchName_shape "Add X!".data 7).2.2 'a' (by decide)⟩

/-- **C10.** A description with no alphanumeric character (the empty
string included) produces an empty slug: the branch name is exactly the
`claude/` namespace followed by `-` and the timestamp. -/
theorem generateBranchName_empty_slug (description : Str) (now : Nat)
    (h : ∀ c ∈ description, c.isAlphanum = false) :
    generateBranchName description now = "claude/-".data ++ natToDecimal now := by
  have hall : ∀ x ∈ (description.map Char.toLower).map
      (fun c => if c.isAlphanum then c else '-'), x = '-' := by
    intro x hx
    rcases List.mem_map.1 hx with ⟨c1, hc1, heq⟩
    rcases List.mem_map.1 hc1 with ⟨c0, hc0, heq0⟩
    have h0 : c0.isAlphanum = false := h c0 hc0
    have h1 : c1 = c0 := by rw [← heq0, Char.toLower_of_not_alphanum c0 h0]
    rw [h1, if_neg (by simp [h0])] at heq
    exact heq.symm
  have hslug : slugOf description = [] := by
    unfold slugOf
    have hfilter : (splitOnChar '-' ((description.map Char.toLower).map
        (fun c => if c.isAlphanum then c else '-'))).filter
          (fun s => !s.isEmpty) = [] := by
      rw [List.filter_eq_nil_iff]
      intro s hs
      cases s with
      | nil => simp
      | cons a t =>
        have hmem := mem_splitOnChar (a :: t) hs a (List.mem_cons_self a t)
        exact absurd (hall a hmem.1) hmem.2
    rw [hfilter]
    rfl
  show "claude/".data ++ slugOf description ++ '-' :: natToDecimal now = _
  rw [hslug]
  rfl

/-- Witness for **C10** at the all-punctuation description `"!?"`. -/
theorem generateBranchName_empty_slug_witness :
    generateBranchName "!?".data 42 = "claude/-42".data := by
  rw [generateBranchName_empty_slug "!?".data 42 (by decide)]
  simp [natToDecimal]
  decide

/- ### Claim theorem: instruction composition -/

/-- **C7.** `compose_instructions` returns the base text, then the
`Additional Instructions` section exactly when `additional` is present
and non-blank, then the `Instructions from File` section exactly when
`file_content` is present and non-blank, then the fixed closing guidance
block — in that order, with blank or absent optional inputs contributing
no text at all. -/
theorem composeInstructions_sections (u : Str) (a f : Option Str) :
    composeInstructions u a f =
      u
        ++ (match a with
            | some add =>
              if (trimStr add).isEmpty then []
              else "\n\n## Additional Instructions\n".data ++ add
            | none => [])
        ++ (match f with
            | some fc =>
              if (trimStr fc).isEmpty then []
              else "\n\n## Instructions from File\n".data ++ fc
            | none => [])
        ++ importantGuidelines := by
  cases a with
  | none =>
    cases f with
    | none => simp [composeInstructions]
    | some fc =>
      by_cases hf : (trimStr fc).isEmpty <;>
        simp [composeInstructions, hf]
  | some add =>
    cases f with
    | none =>
      by_cases ha : (trimStr add).isEmpty <;>
        simp [composeInstructions, ha]
    | some fc =>
      by_cases ha : (trimStr add).isEmpty <;>
        by_cases hf : (trimStr fc).isEmpty <;>
          simp [composeInstructions, ha, hf]

/- ### Registry lemmas -/

theorem lookupSession_mem {reg : Registry} {id : Str} {s : Session}
    (h : lookupSession reg id = some s) : (id, s) ∈ reg := by
  induction reg with
  | nil => simp [lookupSession] at h
  | cons q rest ih =>
    obtain ⟨k, s'⟩ := q
    rw [lookupSession] at h
    by_cases hk : k = id
    · rw [if_pos hk] at h
      subst hk
      obtain rfl : s' = s := by injection h
      exact List.mem_cons_self _ _
    · rw [if_neg hk] at h
      exact List.mem_cons_of_mem _ (ih h)

theorem lookupSession_updateSession_self (reg : Registry) (id : Str)
    (f : Session → Session) :
    lookupSession (updateSession reg id f) id = (lookupSession reg id).map f := by
  induction reg with
  | nil => rfl
  | cons q rest ih =>
    obtain ⟨k, s⟩ := q
    by_cases h : k = id <;>
      simp [updateSession, lookupSession, h, ih]

theorem lookupSession_updateSession_other (reg : Registry) (id : Str)
    (f : Session → Session) (id' : Str) (h : id ≠ id') :
    lookupSession (updateSession reg id f) id' = lookupSession reg id' := by
  induction reg with
  | nil => rfl
  | cons q rest ih =>
    obtain ⟨k, s⟩ := q
    by_cases hk : k = id
    · subst hk
      simp [updateSession, lookupSession, h, ih]
    · by_cases hk' : k = id' <;>
        simp [updateSession, lookupSession, hk, hk', Ne.symm h, ih]

theorem mem_removeEntry {reg : Registry} {id : Str} {p : Str × Session}
    (h : p ∈ removeEntry reg id) : p ∈ reg := by
  induction reg with
  | nil => simp [removeEntry] at h
  | cons q rest ih =>
    obtain ⟨k, s⟩ := q
    rw [removeEntry] at h
    by_cases hk : k = id
    · rw [if_pos hk] at h
      exact List.mem_cons_of_mem _ h
    · rw [if_neg hk] at h
      rcases List.mem_cons.1 h with rfl | hmem
      · exact List.mem_cons_self _ _
      · exact List.mem_cons_of_mem _ (ih hmem)

theorem lookupSession_removeEntry_other (reg : Registry) (id id' : Str)
    (h : id ≠ id') :
    lookupSession (removeEntry reg id) id' = lookupSession reg id' := by
  induction reg with
  | nil => rfl
  | cons q rest ih =>
    obtain ⟨k, s⟩ := q
    by_cases hk : k = id
    · subst hk
      simp [removeEntry, lookupSession, h]
    · by_cases hk' : k = id' <;>
        simp [removeEntry, lookupSession, hk, hk', Ne.symm h, ih]


theorem lookupSession_applyOp_of_not_target (reg : Registry) (op : RegOp)
    (id : Str) (hpres : (lookupSession reg id).isSome = true)
    (hno : opTargetsId op id = false) :
    lookupSession (applyOp reg op) id = lookupSession reg id := by
  cases op with
  | create id' gd instr wd bn now =>
    by_cases h : (lookupSession reg id').isSome
    · simp [applyOp, createSession, h]
    · have hne : id' ≠ id := by
        intro he
        subst he
        rw [hpres] at h
        exact h rfl
      simp [applyOp, createSession, h, lookupSession, hne]
  | setWorking i pid =>
    have hne : i ≠ id := by simpa [opTargetsId] using hno
    by_cases h : (lookupSession reg i).isSome
    · simp [applyOp, setWorkingM, h,
        lookupSession_updateSession_other reg i _ id hne]
    · simp [applyOp, setWorkingM, h]
  | setCompleted i url =>
    have hne : i ≠ id := by simpa [opTargetsId] using hno
    by_cases h : (lookupSession reg i).isSome
    · simp [applyOp, setCompletedM, h,
        lookupSession_updateSession_other reg i _ id hne]
    · simp [applyOp, setCompletedM, h]
  | setError i msg =>
    have hne : i ≠ id := by simpa [opTargetsId] using hno
    by_cases h : (lookupSession reg i).isSome
    · simp [applyOp, setErrorM, h,
        lookupSession_updateSession_other reg i _ id hne]
    · simp [applyOp, setErrorM, h]
  | remove i =>
    have hne : i ≠ id := by simpa [opTargetsId] using hno
    cases h : lookupSession reg i with
    | some s =>
      simp [applyOp, removeSessionM, h,
        lookupSession_removeEntry_other reg i id hne]
    | none => simp [applyOp, removeSessionM, h]

/- ### Field/status consistency machinery -/





theorem registryConsistent_updateSession {reg : Registry} {id : Str}
    {f : Session → Session} (hwf : registryConsistent reg)
    (hf : ∀ s, lookupSession reg id = some s → fieldsMatchStatus (f s).info) :
    registryConsistent (updateSession reg id f) := by
  induction reg with
  | nil => intro p hp; simp [updateSession] at hp
  | cons q rest ih =>
    obtain ⟨k, s⟩ := q
    intro p hp
    rw [updateSession] at hp
    by_cases h : k = id
    · rw [if_pos h] at hp
      rcases List.mem_cons.1 hp with rfl | hmem
      · exact hf s (by simp [lookupSession, h])
      · exact hwf p (List.mem_cons_of_mem _ hmem)
    · rw [if_neg h] at hp
      rcases List.mem_cons.1 hp with rfl | hmem
      · exact hwf _ (List.mem_cons_self _ _)
      · exact ih (fun q hq => hwf q (List.mem_cons_of_mem _ hq))
          (fun s' hs' => hf s' (by simp [lookupSession, h, hs'])) p hmem

theorem nonTerminal_of_okToSet {reg : Registry} {id : Str} {s : Session}
    (hl : lookupSession reg id = some s)
    (hok : (!(statusOf reg id == some SessionStatus.completed)
      && !(statusOf reg id == some SessionStatus.error)) = true) :
    s.info.status ≠ SessionStatus.completed ∧
      s.info.status ≠ SessionStatus.error := by
  have hst : statusOf reg id = some s.info.status := by
    simp [statusOf, hl]
  rw [hst] at hok
  simp at hok
  exact hok


theorem pr_url_none_of_not_completed {i : SessionInfo}
    (hfm : fieldsMatchStatus i) (h : i.status ≠ SessionStatus.completed) :
    i.pr_url = none := by
  cases hpr : i.pr_url with
  | none => rfl
  | some u => exact absurd (hfm.1.mp (by simp [hpr])) h

theorem error_message_none_of_not_error {i : SessionInfo}
    (hfm : fieldsMatchStatus i) (h : i.status ≠ SessionStatus.error) :
    i.error_message = none := by
  cases he : i.error_message with
  | none => rfl
  | some m => exact absurd (hfm.2.mp (by simp [he])) h

theorem consistent_applyOp {reg : Registry} (op : RegOp)
    (hwf : registryConsistent reg) (hok : okToSetB reg op = true) :
    registryConsistent (applyOp reg op) := by
  cases op with
  | create id gd instr wd bn now =>
    by_cases h : (lookupSession reg id).isSome
    · simpa [applyOp, createSession, h] using hwf
    · intro p hp
      simp only [applyOp, createSession, h, Bool.false_eq_true, if_neg] at hp
      rcases List.mem_cons.1 hp with rfl | hmem
      · exact ⟨by simp [Session.new], by simp [Session.new]⟩
      · exact hwf p hmem
  | setWorking i pid =>
    cases hl : lookupSession reg i with
    | none => simpa [applyOp, setWorkingM, hl] using hwf
    | some s =>
      have hpres : (lookupSession reg i).isSome = true := by simp [hl]
      simp only [applyOp, setWorkingM, hpres, if_pos]
      refine registryConsistent_updateSession hwf ?_
      intro s' hs'
      rw [hl] at hs'
      obtain rfl : s = s' := by injection hs'
      have hnt := nonTerminal_of_okToSet hl (by simpa [okToSetB] using hok)
      have hfm : fieldsMatchStatus s.info := hwf (i, s) (lookupSession_mem hl)
      have hpr := pr_url_none_of_not_completed hfm hnt.1
      have herr := error_message_none_of_not_error hfm hnt.2
      constructor <;> simp [fieldsMatchStatus, Session.set_working, hpr, herr]
  | setCompleted i url =>
    cases hl : lookupSession reg i with
    | none => simpa [applyOp, setCompletedM, hl] using hwf
    | some s =>
      have hpres : (lookupSession reg i).isSome = true := by simp [hl]
      simp only [applyOp, setCompletedM, hpres, if_pos]
      refine registryConsistent_updateSession hwf ?_
      intro s' hs'
      rw [hl] at hs'
      obtain rfl : s = s' := by injection hs'
      have hnt := nonTerminal_of_okToSet hl (by simpa [okToSetB] using hok)
      have hfm : fieldsMatchStatus s.info := hwf (i, s) (lookupSession_mem hl)
      have herr := error_message_none_of_not_error hfm hnt.2
      constructor <;> simp [fieldsMatchStatus, Session.set_completed, herr]
  | setError i msg =>
    cases hl : lookupSession reg i with
    | none => simpa [applyOp, setErrorM, hl] using hwf
    | some s =>
      have hpres : (lookupSession reg i).isSome = true := by simp [hl]
      simp only [applyOp, setErrorM, hpres, if_pos]
      refine registryConsistent_updateSession hwf ?_
      intro s' hs'
      rw [hl] at hs'
      obtain rfl : s = s' := by injection hs'
      have hnt := nonTerminal_of_okToSet hl (by simpa [okToSetB] using hok)
      have hfm : fieldsMatchStatus s.info := hwf (i, s) (lookupSession_mem hl)
      have hpr := pr_url_none_of_not_completed hfm hnt.1
      constructor <;> simp [fieldsMatchStatus, Session.set_error, hpr]
  | remove i =>
    cases hl : lookupSession reg i with
    | none => simpa [applyOp, removeSessionM, hl] using hwf
    | some s =>
      simp only [applyOp, removeSessionM, hl]
      intro p hp
      exact hwf p (mem_removeEntry hp)

theorem consistent_applyOps {reg : Registry} (ops : List RegOp)
    (hwf : registryConsistent reg) (hord : orderlyFromB reg ops = true) :
    registryConsistent (applyOps reg ops) := by
  induction ops generalizing reg with
  | nil => exact hwf
  | cons op rest ih =>
    rw [orderlyFromB, Bool.and_eq_true] at hord
    exact ih (consistent_applyOp op hwf hord.1) hord.2

/- ### Claim theorems: registry state machine -/

/-- **C1, counterexample.** The status setters are unguarded: after
`create` + `set_completed` the session `"s"` is in the terminal
`Completed` state, yet a further `set_working` call moves it back to
`Working`. -/
theorem terminal_state_not_stable_cex :
    statusOf (applyOps []
        [.create "s".data [] [] [] [] 0,
         .setCompleted "s".data "u".data]) "s".data
      = some SessionStatus.completed ∧
    statusOf (applyOps []
        [.create "s".data [] [] [] [] 0,
         .setCompleted "s".data "u".data,
         .setWorking "s".data 7]) "s".data
      = some SessionStatus.working := by
  decide

/-- **C1, amended.** A session in a terminal state (`Completed` or
`Error`) keeps that exact status across any further sequence of registry
calls, provided none of them is a `set_working`/`set_completed`/
`set_error`/`remove` aimed at that id — the setters themselves are
unguarded and do move a terminal session when invoked on it. -/
theorem terminal_status_stable (reg : Registry) (id : Str)
    (ops : List RegOp) (st : SessionStatus)
    (hst : statusOf reg id = some st)
    (_hterm : st = SessionStatus.completed ∨ st = SessionStatus.error)
    (hno : ∀ op ∈ ops, opTargetsId op id = false) :
    statusOf (applyOps reg ops) id = some st := by
  induction ops generalizing reg with
  | nil => exact hst
  | cons op rest ih =>
    have hpres : (lookupSession reg id).isSome = true := by
      unfold statusOf at hst
      cases hl : lookupSession reg id
      · rw [hl] at hst
        simp at hst
      · simp
    have hstep :=
      lookupSession_applyOp_of_not_target reg op id hpres
        (hno op (List.mem_cons_self _ _))
    refine ih (applyOp reg op) ?_ fun o ho => hno o (List.mem_cons_of_mem _ ho)
    unfold statusOf at hst ⊢
    rw [hstep]
    exact hst

/-- Witness for **C1**: a completed session survives operations aimed at
other ids. -/
theorem terminal_status_stable_witness :
    statusOf
      (applyOps
        [("s".data,
          ⟨⟨"s".data, .completed, some "u".data, none, [], [], 0⟩, [], [], none⟩)]
        [.setWorking "t".data 3, .remove "t".data]) "s".data
      = some SessionStatus.completed :=
  terminal_status_stable
    [("s".data,
      ⟨⟨"s".data, .completed, some "u".data, none, [], [], 0⟩, [], [], none⟩)]
    "s".data [.setWorking "t".data 3, .remove "t".data]
    SessionStatus.completed (by decide) (Or.inl rfl) (by decide)

/-- **C2, counterexample.** `set_error` does not clear `pr_url`: after
`create`, `set_completed`, `set_error` the record has status `Error`
while `pr_url` is still `Some`, violating the claimed correspondence for
this (disorderly) call sequence. -/
theorem fields_vs_status_cex :
    statusOf (applyOps []
        [.create "s".data [] [] [] [] 0,
         .setCompleted "s".data "u".data,
         .setError "s".data "m".data]) "s".data
      = some SessionStatus.error ∧
    (lookupSession (applyOps []
        [.create "s".data [] [] [] [] 0,
         .setCompleted "s".data "u".data,
         .setError "s".data "m".data]) "s".data).map
      (fun s => s.info.pr_url) = some (some "u".data) := by
  decide

/-- **C2, amended.** After any sequence of registry calls from the empty
registry in which every status setter fires while its target is still
non-terminal (the lifecycle order `Initializing → Working → terminal`),
every record satisfies the correspondence: `pr_url` is `Some` iff the
status is `Completed`, `error_message` is `Some` iff the status is
`Error`, and both are `None` in the `Initializing` and `Working`
states. -/
theorem orderly_fields_match (ops : List RegOp)
    (h : orderlyFromB [] ops = true) :
    ∀ p ∈ applyOps [] ops, fieldsMatchStatus p.2.info :=
  consistent_applyOps ops (fun p hp => absurd hp (List.not_mem_nil p)) h

/-- Witness for **C2**: the record produced by an orderly
`create` → `set_working` → `set_completed` run satisfies the
correspondence. -/
theorem orderly_fields_match_witness :
    fieldsMatchStatus
      (⟨"s".data, .completed, some "u".data, none, [], [], 0⟩ : SessionInfo) :=
  orderly_fields_match
    [.create "s".data [] [] [] [] 0,
     .setWorking "s".data 9,
     .setCompleted "s".data "u".data]
    (by decide)
    ("s".data,
      ⟨⟨"s".data, .completed, some "u".data, none, [], [], 0⟩, [], [], none⟩)
    (by decide)

/-- **C8.** `create_session` on a present id fails with `AlreadyExists`
and leaves the store unchanged; on a fresh id it succeeds, and both the
returned `SessionInfo` and the inserted record are in `Initializing`
state with `pr_url` and `error_message` unset. -/
theorem createSession_spec (reg : Registry) (id gd instr wd bn : Str)
    (now : Nat) :
    ((lookupSession reg id).isSome = true →
      createSession reg id gd instr wd bn now = .error (.alreadyExists id) ∧
      applyOp reg (.create id gd instr wd bn now) = reg) ∧
    (lookupSession reg id = none →
      createSession reg id gd instr wd bn now
          = .ok ((Session.new id gd instr wd bn now).info,
              (id, Session.new id gd instr wd bn now) :: reg) ∧
      (Session.new id gd instr wd bn now).info.status
          = SessionStatus.initializing ∧
      (Session.new id gd instr wd bn now).info.pr_url = none ∧
      (Session.new id gd instr wd bn now).info.error_message = none ∧
      lookupSession ((id, Session.new id gd instr wd bn now) :: reg) id
          = some (Session.new id gd instr wd bn now)) := by
  constructor
  · intro h
    exact ⟨by simp [createSession, h], by simp [applyOp, createSession, h]⟩
  · intro h
    refine ⟨by simp [createSession, h], rfl, rfl, rfl, by simp [lookupSession]⟩

/-- Witness for **C8**: duplicate-id failure on a one-entry registry and
fresh-id success on the empty registry. -/
theorem createSession_spec_witness :
    (createSession [("a".data, Session.new "a".data [] [] [] [] 0)]
        "a".data [] [] [] [] 1 = .error (.alreadyExists "a".data) ∧
      applyOp [("a".data, Session.new "a".data [] [] [] [] 0)]
        (.create "a".data [] [] [] [] 1)
        = [("a".data, Session.new "a".data [] [] [] [] 0)]) ∧
    (createSession [] "b".data [] [] [] [] 0
        = .ok ((Session.new "b".data [] [] [] [] 0).info,
            [("b".data, Session.new "b".data [] [] [] [] 0)]) ∧
      (Session.new "b".data [] [] [] [] 0).info.status
          = SessionStatus.initializing ∧
      (Session.new "b".data [] [] [] [] 0).info.pr_url = none ∧
      (Session.new "b".data [] [] [] [] 0).info.error_message = none ∧
      lookupSession [("b".data, Session.new "b".data [] [] [] [] 0)] "b".data
          = some (Session.new "b".data [] [] [] [] 0)) :=
  ⟨(createSession_spec [("a".data, Session.new "a".data [] [] [] [] 0)]
      "a".data [] [] [] [] 1).1 (by decide),
    (createSession_spec [] "b".data [] [] [] [] 0).2 rfl⟩

/- ### Claim theorems: remote-URL parsing and orphan sweep -/

/-- **C4, counterexample.** The claim's "fails for every URL of any
other shape" and "SSH form `user@host:…`" are both wrong: the code
accepts `https://github.com/owner/repo/extra` (extra path segments are
ignored) and rejects the SSH-shaped `user@github.com:owner/repo`
(the user must be the literal `git`). -/
theorem parseGithubRemote_cex :
    parseGithubRemote "https://github.com/owner/repo/extra".data
        = .ok ⟨"owner".data, "repo".data⟩ ∧
    parseGithubRemote "user@github.com:owner/repo".data
        = .error (.gitError
            "Could not parse GitHub remote URL: user@github.com:owner/repo".data) :=
  ⟨rfl, rfl⟩

/-- **C4, amended.** A successfully parsed URL is (after trimming)
either `git@`-prefixed with the `github.com:` marker, or literally
`https://github.com/`-prefixed; the `.git`-optional SSH and HTTPS
examples parse to `{owner, repo}`, and `https://gitlab.com/owner/repo`
fails with a parse error. -/
theorem parseGithubRemote_spec :
    (∀ url r, parseGithubRemote url = .ok r →
      ("git@".data.isPrefixOf (trimStr url)
          && containsSub (trimStr url) "github.com:".data) = true
        ∨ "https://github.com/".data.isPrefixOf (trimStr url) = true) ∧
    parseGithubRemote "git@github.com:owner/repo.git".data
        = .ok ⟨"owner".data, "repo".data⟩ ∧
    parseGithubRemote "git@github.com:owner/repo".data
        = .ok ⟨"owner".data, "repo".data⟩ ∧
    parseGithubRemote "https://github.com/owner/repo.git".data
        = .ok ⟨"owner".data, "repo".data⟩ ∧
    parseGithubRemote "https://github.com/owner/repo".data
        = .ok ⟨"owner".data, "repo".data⟩ ∧
    parseGithubRemote "https://gitlab.com/owner/repo".data
        = .error (.gitError
            "Could not parse GitHub remote URL: https://gitlab.com/owner/repo".data) := by
  refine ⟨?_, rfl, rfl, rfl, rfl, rfl⟩
  intro url r h
  by_cases h1 : ("git@".data.isPrefixOf (trimStr url)
      && containsSub (trimStr url) "github.com:".data) = true
  · exact Or.inl h1
  · by_cases h2 : "https://github.com/".data.isPrefixOf (trimStr url) = true
    · exact Or.inr h2
    · exfalso
      rw [Bool.not_eq_true] at h1 h2
      simp [parseGithubRemote, h1, h2] at h

/-- Witness for **C4**: the shape condition instantiated at a concrete
successfully parsed SSH remote. -/
theorem parseGithubRemote_spec_witness :
    ("git@".data.isPrefixOf (trimStr "git@github.com:o/r".data)
        && containsSub (trimStr "git@github.com:o/r".data) "github.com:".data) = true
      ∨ "https://github.com/".data.isPrefixOf
          (trimStr "git@github.com:o/r".data) = true :=
  parseGithubRemote_spec.1 "git@github.com:o/r".data ⟨"o".data, "r".data⟩ rfl

theorem cleanupLoop_kept_sub (entries : List DirEntry) :
    ∀ e ∈ (cleanupLoop entries).1, e ∈ entries ∧ isSessionDirEntry e = false := by
  induction entries with
  | nil => intro e he; simp [cleanupLoop] at he
  | cons a rest ih =>
    intro e he
    rw [cleanupLoop] at he
    by_cases h : isSessionDirEntry a
    · rw [if_pos h] at he
      have := ih e he
      exact ⟨List.mem_cons_of_mem _ this.1, this.2⟩
    · rw [if_neg h] at he
      rcases List.mem_cons.1 he with rfl | hmem
      · exact ⟨List.mem_cons_self _ _, by simpa using h⟩
      · have := ih e hmem
        exact ⟨List.mem_cons_of_mem _ this.1, this.2⟩

theorem cleanupLoop_keeps_non_session (entries : List DirEntry) :
    ∀ e ∈ entries, isSessionDirEntry e = false → e ∈ (cleanupLoop entries).1 := by
  induction entries with
  | nil => intro e he; simp at he
  | cons a rest ih =>
    intro e he hns
    rw [cleanupLoop]
    by_cases h : isSessionDirEntry a
    · rw [if_pos h]
      rcases List.mem_cons.1 he with rfl | hmem
      · rw [h] at hns; exact absurd hns (by simp)
      · exact ih e hmem hns
    · rw [if_neg h]
      rcases List.mem_cons.1 he with rfl | hmem
      · exact List.mem_cons_self _ _
      · exact List.mem_cons_of_mem _ (ih e hmem hns)

theorem cleanupLoop_count (entries : List DirEntry) :
    (cleanupLoop entries).2 + (cleanupLoop entries).1.length = entries.length := by
  induction entries with
  | nil => rfl
  | cons a rest ih =>
    rw [cleanupLoop]
    by_cases h : isSessionDirEntry a <;> simp [h] <;> omega

/-- **C5, amended.** The orphan sweep removes exactly the *directory*
entries whose name starts with `session-` (a non-directory entry with
that name is left in place), leaves every other entry untouched, and
returns the number of removed entries; on a root with two
session-prefixed directories and one unrelated directory it removes
exactly the two; an absent root yields zero. -/
theorem cleanupOrphanedSessions_spec (entries : List DirEntry) :
    cleanupOrphanedSessions (some entries)
        = (some (cleanupLoop entries).1, (cleanupLoop entries).2) ∧
    (∀ e ∈ (cleanupLoop entries).1,
        e ∈ entries ∧ isSessionDirEntry e = false) ∧
    (∀ e ∈ entries, isSessionDirEntry e = false → e ∈ (cleanupLoop entries).1) ∧
    (cleanupLoop entries).2 + (cleanupLoop entries).1.length = entries.length ∧
    cleanupOrphanedSessions (some
        [⟨"session-1".data, true⟩, ⟨"session-2".data, true⟩,
          ⟨"notes".data, true⟩])
      = (some [⟨"notes".data, true⟩], 2) ∧
    cleanupOrphanedSessions none = (none, 0) :=
  ⟨rfl, cleanupLoop_kept_sub entries, cleanupLoop_keeps_non_session entries,
    cleanupLoop_count entries, by decide, rfl⟩

/-- Witness for **C5**: on the mixed root, the kept entry `notes` is a
member of the original listing and is not a session directory. -/
theorem cleanupOrphanedSessions_spec_witness :
    (⟨"notes".data, true⟩ : DirEntry)
        ∈ [(⟨"session-1".data, true⟩ : DirEntry), ⟨"session-2".data, true⟩,
            ⟨"notes".data, true⟩] ∧
      isSessionDirEntry ⟨"notes".data, true⟩ = false :=
  (cleanupOrphanedSessions_spec
      [⟨"session-1".data, true⟩, ⟨"session-2".data, true⟩,
        ⟨"notes".data, true⟩]).2.1
    ⟨"notes".data, true⟩ (by decide)

/-- **C5, counterexample.** A root holding two `session-`-prefixed
entries — one directory, one plain file — and one unrelated directory:
the sweep removes only the directory, so an entry whose name starts with
`session-` survives, and the count is 1, not 2. -/
theorem cleanupOrphanedSessions_cex :
    cleanupOrphanedSessions (some
        [⟨"session-a".data, true⟩, ⟨"session-b".data, false⟩,
          ⟨"other".data, true⟩])
      = (some [⟨"session-b".data, false⟩, ⟨"other".data, true⟩], 1) := by
  decide

/- ### Persistence round-trip lemmas -/

theorem dropLit_append (p rest : Str) : dropLit p (p ++ rest) = some rest := by
  induction p with
  | nil => rfl
  | cons c ps ih => simp [dropLit, ih]

theorem dropLit_self (p : Str) : dropLit p p = some [] := by
  have := dropLit_append p []
  rwa [List.append_nil] at this

theorem hexVal_hexDigitChar : ∀ d < 16, hexVal (hexDigitChar d) = some d := by
  decide


theorem parseStringBody_escape (s rest : Str) :
    parseStringBody (escapeStr s ++ '"' :: rest) = some (s, rest) := by
  induction s with
  | nil =>
    show parseStringBody ('"' :: rest) = some ([], rest)
    rw [parseStringBody.eq_def]
    simp
  | cons c s ih =>
    show parseStringBody ((escapeChar c ++ escapeStr s) ++ '"' :: rest) = _
    rw [List.append_assoc]
    unfold escapeChar
    by_cases h1 : c = '"'
    · subst h1
      simp only [if_pos rfl, List.cons_append, List.nil_append]
      rw [parseStringBody.eq_def]
      simp [unescapeChar, ih]
    · rw [if_neg h1]
      by_cases h2 : c = '\\'
      · subst h2
        simp only [if_pos rfl, List.cons_append, List.nil_append]
        rw [parseStringBody.eq_def]
        simp [unescapeChar, ih]
      · rw [if_neg h2]
        by_cases h3 : c = '\x08'
        · subst h3
          simp only [if_pos rfl, List.cons_append, List.nil_append]
          rw [parseStringBody.eq_def]
          simp [unescapeChar, ih]
        · rw [if_neg h3]
          by_cases h4 : c = '\t'
          · subst h4
            simp only [if_pos rfl, List.cons_append, List.nil_append]
            rw [parseStringBody.eq_def]
            simp [unescapeChar, ih]
          · rw [if_neg h4]
            by_cases h5 : c = '\n'
            · subst h5
              simp only [if_pos rfl, List.cons_append, List.nil_append]
              rw [parseStringBody.eq_def]
              simp [unescapeChar, ih]
            · rw [if_neg h5]
              by_cases h6 : c = '\x0c'
              · subst h6
                simp only [if_pos rfl, List.cons_append, List.nil_append]
                rw [parseStringBody.eq_def]
                simp [unescapeChar, ih]
              · rw [if_neg h6]
                by_cases h7 : c = '\r'
                · subst h7
                  simp only [if_pos rfl, List.cons_append, List.nil_append]
                  rw [parseStringBody.eq_def]
                  simp [unescapeChar, ih]
                · rw [if_neg h7]
                  by_cases h8 : c.toNat < 32
                  · rw [if_pos h8]
                    have hd1 : hexVal (hexDigitChar (c.toNat / 16))
                        = some (c.toNat / 16) :=
                      hexVal_hexDigitChar _ (by omega)
                    have hd2 : hexVal (hexDigitChar (c.toNat % 16))
                        = some (c.toNat % 16) :=
                      hexVal_hexDigitChar _ (by omega)
                    simp only [List.cons_append, List.nil_append]
                    rw [parseStringBody.eq_def]
                    simp [show hexVal '0' = some 0 from by decide, hd1, hd2, ih]
                    have hval : c.toNat / 16 * 16 + c.toNat % 16 = c.toNat := by
                      omega
                    rw [hval, Char.ofNat_toNat]
                  · rw [if_neg h8]
                    simp only [List.cons_append, List.nil_append]
                    rw [parseStringBody.eq_def]
                    simp [h1, h2, ih]

theorem parseJsonString_quote (s rest : Str) :
    parseJsonString (quoteStr s ++ rest) = some (s, rest) := by
  show parseJsonString ('"' :: (escapeStr s ++ ['"']) ++ rest) = some (s, rest)
  rw [List.cons_append, parseJsonString]
  simp only [if_pos rfl]
  rw [List.append_assoc, List.cons_append, List.nil_append]
  exact parseStringBody_escape s rest

theorem parseOptStr_encode (o : Option Str) (rest : Str) :
    parseOptStr (encodeOptStr o ++ rest) = some (o, rest) := by
  cases o with
  | none =>
    show parseOptStr ("null".data ++ rest) = some (none, rest)
    have hn : "null".data ++ rest = 'n' :: 'u' :: 'l' :: 'l' :: rest := rfl
    rw [hn, parseOptStr]
    simp [dropLit]
  | some s =>
    show parseOptStr (quoteStr s ++ rest) = some (some s, rest)
    have hq : quoteStr s ++ rest = '"' :: (escapeStr s ++ ['"'] ++ rest) := by
      simp [quoteStr]
    rw [hq, parseOptStr]
    simp only [if_pos rfl]
    rw [parseJsonString]
    simp only [if_pos rfl]
    rw [List.append_assoc, List.cons_append, List.nil_append,
      parseStringBody_escape]
    rfl

theorem parseStatus_encode (st : SessionStatus) (rest : Str) :
    parseStatus (encodeStatus st ++ rest) = some (st, rest) := by
  cases st <;> rfl

theorem takeWhile_digits_append (a : Str) (ha : ∀ c ∈ a, c.isDigit = true)
    (rest : Str) :
    (a ++ '}' :: rest).takeWhile (fun c => c.isDigit) = a
      ∧ (a ++ '}' :: rest).dropWhile (fun c => c.isDigit) = '}' :: rest := by
  induction a with
  | nil =>
    constructor <;>
      simp [List.takeWhile_cons, List.dropWhile_cons,
        show '}'.isDigit = false from by decide]
  | cons c a ih =>
    have hc := ha c (List.mem_cons_self _ _)
    have ih' := ih fun x hx => ha x (List.mem_cons_of_mem _ hx)
    simp [List.takeWhile_cons, List.dropWhile_cons, hc, ih'.1, ih'.2]

theorem parseNatDecimal_natToDecimal (n : Nat) :
    parseNatDecimal (natToDecimal n ++ "\x7d".data) = some (n, "\x7d".data) := by
  have hsplit : (natToDecimal n ++ "\x7d".data : Str)
      = natToDecimal n ++ '}' :: [] := rfl
  have hw := takeWhile_digits_append (natToDecimal n)
    (natToDecimal_all_digits n) []
  rw [hsplit]
  unfold parseNatDecimal
  rw [hw.1, hw.2]
  have hne : (natToDecimal n).isEmpty = false := by
    cases hh : natToDecimal n with
    | nil => exact absurd hh (natToDecimal_ne_nil n)
    | cons c l => rfl
  simp [hne, decValue_natToDecimal n]

set_option maxHeartbeats 1000000 in
theorem parseSessionInfo_serialize (info : SessionInfo) :
    parseSessionInfo (serializeSessionInfo info) = some info := by
  obtain ⟨id, st, pr, err, gd, instr, ca⟩ := info
  unfold serializeSessionInfo parseSessionInfo
  simp only [List.append_assoc]
  simp only [Option.bind_eq_bind, Option.some_bind]
  rw [dropLit_append]
  simp only [Option.some_bind]
  rw [parseJsonString_quote]
  simp only [Option.some_bind]
  rw [dropLit_append]
  simp only [Option.some_bind]
  rw [parseStatus_encode]
  simp only [Option.some_bind]
  rw [dropLit_append]
  simp only [Option.some_bind]
  rw [parseOptStr_encode]
  simp only [Option.some_bind]
  rw [dropLit_append]
  simp only [Option.some_bind]
  rw [parseOptStr_encode]
  simp only [Option.some_bind]
  rw [dropLit_append]
  simp only [Option.some_bind]
  rw [parseJsonString_quote]
  simp only [Option.some_bind]
  rw [dropLit_append]
  simp only [Option.some_bind]
  rw [parseJsonString_quote]
  simp only [Option.some_bind]
  rw [dropLit_append]
  simp only [Option.some_bind]
  rw [show (natToDecimal ca ++ ['}'] : Str) = natToDecimal ca ++ "\x7d".data
    from rfl, parseNatDecimal_natToDecimal]
  simp only [Option.some_bind]
  rw [dropLit_self]
  simp only [Option.some_bind]
  rfl

theorem getFile_setFile_self (store : FileStore) (id content : Str) :
    getFile (setFile store id content) id = some content := by
  induction store with
  | nil => simp [setFile, getFile]
  | cons p rest ih =>
    obtain ⟨k, v⟩ := p
    by_cases h : k = id <;> simp [setFile, getFile, h, ih]

/- ### Claim theorem: persistence round-trip -/

/-- **C9.** Saving a `SessionInfo` and loading it back under the same id
returns `Some` of a field-for-field equal record; loading an id with no
record file returns `Ok(None)` rather than an error. -/
theorem saveLoad_roundtrip (store : FileStore) (info : SessionInfo)
    (sid : Str) :
    loadSessionInfo (saveSessionInfo store info) info.id = .ok (some info) ∧
    (getFile store sid = none → loadSessionInfo store sid = .ok none) := by
  constructor
  · unfold loadSessionInfo saveSessionInfo
    rw [getFile_setFile_self]
    simp [parseSessionInfo_serialize]
  · intro h
    unfold loadSessionInfo
    rw [h]

/-- Witness for **C9**: loading from an empty sessions directory yields
`Ok(None)`. -/
theorem saveLoad_roundtrip_witness :
    loadSessionInfo [] "x".data = .ok none :=
  (saveLoad_roundtrip [] ⟨[], .initializing, none, none, [], [], 0⟩
    "x".data).2 rfl
